import Mathlib

/-!
Verification of the real-time audio session engine of the Empathy Agent
client (sample codec, playback scheduler, transcript assembler, session
state machine).  Each definition is a shallow embedding of the
corresponding TypeScript function; samples and clock values are modelled
as rationals, machine 16-bit conversion is modelled with explicit
truncation and wrap-around.
-/

set_option maxRecDepth 4000

/-- Speaker roles of a log message, from `types.ts` (`'user' | 'model' | 'system'`). -/
inductive Role where
  | user
  | model
  | system
deriving DecidableEq

/-- A transcript entry, from `types.ts` (`LogMessage`). Timestamps are modelled as naturals. -/
structure LogMessage where
  role : Role
  text : String
  timestamp : Nat
deriving DecidableEq

/-- Session status values of `InterviewSession` (`'idle' | 'connecting' | 'connected' | 'error' | 'finished'`). -/
inductive Status where
  | idle
  | connecting
  | connected
  | error
  | finished
deriving DecidableEq

/-- Truncation toward zero of a rational, the integer conversion JavaScript
applies when a number is stored into an `Int16Array` (`ToIntegerOrInfinity`). -/
def ratTrunc (q : ℚ) : ℤ :=
  q.num.tdiv q.den

/-- Wrap an already-truncated integer into the signed 16-bit range, the
`ToInt16` modular step of the JavaScript `Int16Array` element store. -/
def toInt16 (i : ℤ) : ℤ :=
  (i + 32768) % 65536 - 32768

/-- One sample of `float32ToInt16` from `audioUtils.ts`: clip to [-1,1] with
`Math.max(-1, Math.min(1, s))`, scale by 0x8000 when negative and 0x7fff
otherwise, then store into the `Int16Array` (truncate toward zero and wrap). -/
def float32ToInt16Sample (x : ℚ) : ℤ :=
  toInt16 (ratTrunc (if max (-1) (min 1 x) < 0
                     then max (-1) (min 1 x) * 32768
                     else max (-1) (min 1 x) * 32767))

/-- `float32ToInt16` from `audioUtils.ts`, applied to a whole frame. -/
def float32ToInt16 (frame : List ℚ) : List ℤ :=
  frame.map float32ToInt16Sample

/-- Per-sample conversion as the specification words it: clip, scale
asymmetrically, then round to the nearest integer. -/
def roundSpecSample (x : ℚ) : ℤ :=
  if max (-1) (min 1 x) < 0
  then round (max (-1) (min 1 x) * 32768)
  else round (max (-1) (min 1 x) * 32767)

/-- Standard base64 alphabet used by `btoa`/`atob` (6-bit groups to
characters). -/
def base64Chars : List Char :=
  "ABCDEFGHIJKLMNOPQRSTUVWXYZabcdefghijklmnopqrstuvwxyz0123456789+/".toList

/-- Character of a 6-bit group. -/
def charOfSextet (n : Nat) : Char :=
  base64Chars.getD n 'A'

/-- Index of a base64 character in the alphabet, the inverse lookup `atob`
performs. -/
def sextetOfChar (c : Char) : Nat :=
  base64Chars.indexOf c

/-- Byte-to-sextet regrouping of base64 encoding: three 8-bit bytes become
four 6-bit groups, with the standard truncated final group for a remainder
of one or two bytes. -/
def encB : List Nat → List Nat
  | b0 :: b1 :: b2 :: rest =>
      b0 / 4 :: (b0 % 4 * 16 + b1 / 16) :: (b1 % 16 * 4 + b2 / 64) :: b2 % 64 :: encB rest
  | [b0, b1] => [b0 / 4, b0 % 4 * 16 + b1 / 16, b1 % 16 * 4]
  | [b0] => [b0 / 4, b0 % 4 * 16]
  | [] => []

/-- Sextet-to-byte regrouping of base64 decoding: four 6-bit groups become
three bytes, a final group of three or two sextets yields two bytes or one. -/
def decB : List Nat → List Nat
  | s0 :: s1 :: s2 :: s3 :: rest =>
      (s0 * 4 + s1 / 16) :: (s1 % 16 * 16 + s2 / 4) :: (s2 % 4 * 64 + s3) :: decB rest
  | [s0, s1, s2] => [s0 * 4 + s1 / 16, s1 % 16 * 16 + s2 / 4]
  | [s0, s1] => [s0 * 4 + s1 / 16]
  | [_] => []
  | [] => []

/-- `arrayBufferToBase64` from `audioUtils.ts`: build the byte string and apply
`btoa`, i.e. emit the base64 characters of the 6-bit groups followed by the
standard `=` padding. -/
def arrayBufferToBase64 (bytes : List Nat) : String :=
  String.mk ((encB bytes).map charOfSextet ++
    List.replicate ((3 - bytes.length % 3) % 3) '=')

/-- `base64ToUint8Array` from `audioUtils.ts`: apply `atob` and read the bytes
back, i.e. drop padding, look every character up in the alphabet and regroup
the 6-bit values into bytes. -/
def base64ToUint8Array (s : String) : List Nat :=
  decB ((s.data.filter (fun c => c ≠ '=')).map sextetOfChar)

/-- Whether a string ends with the space character, the JavaScript
`text.endsWith(' ')` test of `handleStreamingLog`. -/
def endsWithSpace (s : String) : Bool :=
  s.data.getLast? == some ' '

/-- Whether a string starts with the space character, the JavaScript
`text.startsWith(' ')` test of `handleStreamingLog`. -/
def startsWithSpace (s : String) : Bool :=
  s.data.head? == some ' '

/-- `handleStreamingLog` from `InterviewSession`: merge a streamed fragment
into the last log entry when it has the same non-system role, inserting a
single space unless the previous text is empty, already ends with a space, or
the fragment starts with one; otherwise append a fresh entry. -/
def handleStreamingLog (prev : List LogMessage) (role : Role) (text : String)
    (now : Nat) : List LogMessage :=
  match prev.getLast? with
  | some lastLog =>
      if lastLog.role = role ∧ role ≠ Role.system then
        prev.dropLast ++
          [{ lastLog with
              text := lastLog.text ++
                (if decide (0 < lastLog.text.length) && !endsWithSpace lastLog.text &&
                    !startsWithSpace text
                 then " " else "") ++ text }]
      else prev ++ [⟨role, text, now⟩]
  | none => prev ++ [⟨role, text, now⟩]

/-- Merge policy as the amended specification words it: join with exactly one
separating space when the existing text is non-empty and neither the existing
text ends with a space character nor the fragment starts with one. -/
def mergeTextSpec (oldText newText : String) : String :=
  if oldText ≠ "" ∧ endsWithSpace oldText = false ∧ startsWithSpace newText = false
  then oldText ++ " " ++ newText
  else oldText ++ newText

/-- Transcript assembly rule as the amended specification words it, working on
the reversed sequence: replace the head of the reversal (the newest message)
when roles agree and are not system, else append a new message. -/
def assembleSpec (prev : List LogMessage) (role : Role) (text : String)
    (now : Nat) : List LogMessage :=
  match prev.reverse with
  | [] => [⟨role, text, now⟩]
  | lastLog :: front =>
      if lastLog.role = role ∧ role ≠ Role.system then
        (({ lastLog with text := mergeTextSpec lastLog.text text }) :: front).reverse
      else prev ++ [⟨role, text, now⟩]

/-- Whether a string ends in a whitespace character. -/
def endsWithWhitespace (s : String) : Bool :=
  ((s.data.getLast?).map Char.isWhitespace).getD false

/-- Whether a string starts with a whitespace character. -/
def startsWithWhitespace (s : String) : Bool :=
  ((s.data.head?).map Char.isWhitespace).getD false

/-- Merge policy exactly as claim C3 words it: insert the separating space
when neither side of the join already has trailing or leading whitespace. -/
def claimMergeText (oldText newText : String) : String :=
  if endsWithWhitespace oldText = false ∧ startsWithWhitespace newText = false
  then oldText ++ " " ++ newText
  else oldText ++ newText

/-- Transcript assembly as claim C3 words it (whitespace-based join test). -/
def assembleClaim (prev : List LogMessage) (role : Role) (text : String)
    (now : Nat) : List LogMessage :=
  match prev.getLast? with
  | some lastLog =>
      if lastLog.role = role ∧ role ≠ Role.system then
        prev.dropLast ++ [{ lastLog with text := claimMergeText lastLog.text text }]
      else prev ++ [⟨role, text, now⟩]
  | none => prev ++ [⟨role, text, now⟩]

/-- Feed a sequence of `(role, text, timestamp)` events through the streaming
log handler, starting from the empty log. -/
def runAssembler (events : List (Role × String × Nat)) : List LogMessage :=
  events.foldl (fun logs e => handleStreamingLog logs e.1 e.2.1 e.2.2) []

/-- One scheduled playback fragment: its start time, duration, and the value
of the playback clock (`nextStartTimeRef`) right after scheduling it. -/
structure SchedEntry where
  start : ℚ
  dur : ℚ
  clockAfter : ℚ
deriving DecidableEq

/-- The `onAudioData` scheduling loop of `startVoiceSession`: each arriving
fragment `(deviceTime, duration)` is scheduled at
`max deviceTime nextStartTime` and the clock becomes `startTime + duration`. -/
def schedTrace : ℚ → List (ℚ × ℚ) → List SchedEntry
  | _, [] => []
  | clock, (t, d) :: rest =>
      ⟨max t clock, d, max t clock + d⟩ :: schedTrace (max t clock + d) rest

/-- Session model for `InterviewSession`: current status, the ordered trace of
statuses set with `setStatus`, the log list, and the Transport calls made. -/
structure SessionModel where
  status : Status
  statusTrace : List Status
  logs : List LogMessage
  transportCalls : List String
deriving DecidableEq

/-- Record a `setStatus` call. -/
def setStatus (s : SessionModel) (st : Status) : SessionModel :=
  { s with status := st, statusTrace := s.statusTrace ++ [st] }

/-- The fresh session before `start()` is pressed. -/
def initialSession : SessionModel :=
  ⟨Status.idle, [], [], []⟩

/-- `handleStart` from `InterviewSession`: set status to connecting, then, if
the API key is empty, log `API Key missing` as a system entry and set status
to error without touching the Transport; otherwise proceed to open the
session (`startVoiceSession`/`startTextSession`), modelled as one Transport
connect call. -/
def handleStart (apiKey : String) (now : Nat) (s : SessionModel) : SessionModel :=
  let s1 := setStatus s Status.connecting
  if apiKey = "" then
    setStatus { s1 with logs := handleStreamingLog s1.logs Role.system "API Key missing" now }
      Status.error
  else
    { s1 with transportCalls := s1.transportCalls ++ ["connect"] }

/-- Little-endian byte pair of one 16-bit sample as laid out in the
`Int16Array` buffer that `arrayBufferToBase64` reads: the two bytes of the
sample's two's-complement representation `v mod 2^16`. -/
def int16ToBytes (v : ℤ) : List Nat :=
  [(v.emod 65536).toNat % 256, (v.emod 65536).toNat / 256]

/-- Bytes of a whole 16-bit sample buffer. -/
def int16ListToBytes (l : List ℤ) : List Nat :=
  (l.map int16ToBytes).flatten

/-- The `processor.onaudioprocess` capture callback of `startVoiceSession`:
drop the frame when muted or the session is not connected, otherwise convert
it with `float32ToInt16`, encode with `arrayBufferToBase64`, and hand the
chunk to `sendAudioChunk`; the result is the chunk passed to the Transport,
or none. -/
def onaudioprocess (muted : Bool) (status : Status) (input : List ℚ) :
    Option String :=
  if muted = true ∨ status ≠ Status.connected then none
  else some (arrayBufferToBase64 (int16ListToBytes (float32ToInt16 input)))

/-- Upper-cased role name, the `l.role.toUpperCase()` of `handleFinish`. -/
def roleUpper : Role → String
  | Role.user => "USER"
  | Role.model => "MODEL"
  | Role.system => "SYSTEM"

/-- JavaScript `Array.prototype.join('\n')`. -/
def joinNl : List String → String
  | [] => ""
  | [s] => s
  | s :: rest => s ++ "\n" ++ joinNl rest

/-- The transcript `handleFinish` hands to `onComplete`: drop system entries,
render each message as `ROLE: text`, join with newlines. -/
def fullTranscript (logs : List LogMessage) : String :=
  joinNl ((logs.filter (fun l => l.role ≠ Role.system)).map
    (fun l => roleUpper l.role ++ ": " ++ l.text))

/-- Final transcript as the specification words it, by one recursion over the
sequence: skip system entries, render the rest in order, separating rendered
messages by a newline. -/
def specTranscript : List LogMessage → String
  | [] => ""
  | m :: rest =>
      if m.role = Role.system then specTranscript rest
      else if (rest.filter (fun l => l.role ≠ Role.system)).isEmpty then
        roleUpper m.role ++ ": " ++ m.text
      else roleUpper m.role ++ ": " ++ m.text ++ "\n" ++ specTranscript rest

/-- Outcome of the live service's session promise: `connect` either resolved
it to an open session or left it rejected (a failed connect is caught in
`startVoiceSession`, but the rejected promise itself is never nulled). -/
inductive PromiseState where
  | fulfilled
  | rejected
deriving DecidableEq

/-- Resource state relevant to `handleDisconnect`: the live service ref
(outer option) and its session promise (inner option, absent once a
disconnect nulled it), whether the processor ref is set, the number of input
tracks still referenced, whether the output audio context is present and
closed, and the set of live playback sources. -/
structure TeardownState where
  liveService : Option (Option PromiseState)
  processor : Bool
  stream : Option Nat
  audioCtxClosed : Option Bool
  sources : List Nat
deriving DecidableEq

/-- Observable side effects of one teardown run. -/
inductive TDEffect where
  | closeSession
  | procDisconnect
  | trackStop (i : Nat)
  | ctxClose
  | sourceStop (id : Nat)
deriving DecidableEq

/-- Result of one teardown run: the resource state afterwards, the side
effects performed, and whether the run threw (an exception escaping
`handleDisconnect`). -/
structure TDResult where
  state : TeardownState
  effects : List TDEffect
  threw : Bool
deriving DecidableEq

/-- Session-promise field after a non-throwing `GeminiLiveService.disconnect`
(a fulfilled promise is awaited, closed and nulled; an absent one is left
alone). -/
def serviceDisconnectState : Option (Option PromiseState) → Option (Option PromiseState)
  | some _ => some none
  | none => none

/-- Effects of a non-throwing `GeminiLiveService.disconnect`: the remote
session is closed only when the promise is still set and fulfilled. -/
def serviceDisconnectEffects : Option (Option PromiseState) → List TDEffect
  | some (some PromiseState.fulfilled) => [TDEffect.closeSession]
  | _ => []

/-- Audio-context ref after teardown: an open context is closed and the ref
nulled; a context already closed keeps its ref (the guard skips it); a null
ref stays null. -/
def ctxStateAfter : Option Bool → Option Bool
  | some false => none
  | some true => some true
  | none => none

/-- Effects on the audio context: `close()` is called only when the ref is
set and the state is not already closed. -/
def ctxEffects : Option Bool → List TDEffect
  | some false => [TDEffect.ctxClose]
  | _ => []

/-- `handleDisconnect` from `InterviewSession`: first
`await liveServiceRef.current.disconnect()` with no guard — when the session
promise is rejected, `disconnect` re-throws it (`await this.sessionPromise`
has no catch and the promise is only nulled after the await), so the run
aborts before any other step with the state unchanged.  Otherwise: disconnect
the live service, disconnect and null the processor, stop and drop the input
tracks, close the output audio context unless already closed, then stop
(inside try/catch) and clear every live playback source. -/
def handleDisconnect (s : TeardownState) : TDResult :=
  if s.liveService = some (some PromiseState.rejected) then
    ⟨s, [], true⟩
  else
    ⟨⟨serviceDisconnectState s.liveService, false, none,
        ctxStateAfter s.audioCtxClosed, []⟩,
      serviceDisconnectEffects s.liveService ++
        (if s.processor then [TDEffect.procDisconnect] else []) ++
        (match s.stream with
          | some n => (List.range n).map TDEffect.trackStop
          | none => []) ++
        ctxEffects s.audioCtxClosed ++
        s.sources.map TDEffect.sourceStop, false⟩

/-- Truncation toward zero agrees with the floor on non-negative inputs and
with the negated floor of the negation on negative inputs. -/
theorem ratTrunc_eq_floor (q : ℚ) : ratTrunc q = if q < 0 then -⌊-q⌋ else ⌊q⌋ := by
  unfold ratTrunc
  have hden : (0 : ℤ) ≤ (q.den : ℤ) := by positivity
  rcases lt_or_ge q 0 with h | h
  · rw [if_pos h]
    have hnum : q.num < 0 := Rat.num_neg.mpr h
    have h1 : q.num.tdiv q.den = -((-q.num).tdiv q.den) := by
      rw [← Int.neg_tdiv, neg_neg]
    rw [h1, Int.tdiv_eq_ediv (by omega) hden]
    have h2 : ⌊-q⌋ = (-q).num / ((-q).den : ℤ) := Rat.floor_def
    rw [h2, Rat.neg_num, Rat.neg_den]
  · rw [if_neg (not_lt.mpr h)]
    have hnum : 0 ≤ q.num := Rat.num_nonneg.mpr h
    rw [Int.tdiv_eq_ediv hnum hden, Rat.floor_def]

theorem toInt16_eq_of_bounds (i : ℤ) (h1 : -32768 ≤ i) (h2 : i ≤ 32767) :
    toInt16 i = i := by
  unfold toInt16
  omega

theorem ratTrunc_bounds (q : ℚ) (h1 : (-32768 : ℚ) ≤ q) (h2 : q ≤ 32767) :
    -32768 ≤ ratTrunc q ∧ ratTrunc q ≤ 32767 := by
  rw [ratTrunc_eq_floor]
  rcases lt_or_ge q 0 with h | h
  · rw [if_pos h]
    have hup : ⌊-q⌋ ≤ 32768 := by
      have hx : -q ≤ ((32768 : ℤ) : ℚ) := by push_cast; linarith
      calc ⌊-q⌋ ≤ ⌊((32768 : ℤ) : ℚ)⌋ := Int.floor_le_floor hx
        _ = 32768 := Int.floor_intCast 32768
    have hlo : 0 ≤ ⌊-q⌋ := by
      rw [Int.floor_nonneg]
      linarith
    omega
  · rw [if_neg (not_lt.mpr h)]
    have hup : ⌊q⌋ ≤ 32767 := by
      have hx : q ≤ ((32767 : ℤ) : ℚ) := by push_cast; linarith
      calc ⌊q⌋ ≤ ⌊((32767 : ℤ) : ℚ)⌋ := Int.floor_le_floor hx
        _ = 32767 := Int.floor_intCast 32767
    have hlo : 0 ≤ ⌊q⌋ := by
      rw [Int.floor_nonneg]
      exact h
    omega

theorem clip_mem_Icc (x : ℚ) :
    (-1 : ℚ) ≤ max (-1) (min 1 x) ∧ max (-1) (min 1 x) ≤ 1 := by
  constructor
  · exact le_max_left _ _
  · rcases le_total (-1 : ℚ) (min 1 x) with h | h
    · rw [max_eq_right h]
      exact min_le_left _ _
    · rw [max_eq_left h]
      linarith

theorem clip_idem (x : ℚ) :
    max (-1 : ℚ) (min 1 (max (-1) (min 1 x))) = max (-1) (min 1 x) := by
  obtain ⟨h1, h2⟩ := clip_mem_Icc x
  rw [min_eq_right h2, max_eq_right h1]

theorem ratTrunc_intCast (n : ℤ) : ratTrunc ((n : ℤ) : ℚ) = n := by
  rw [ratTrunc_eq_floor]
  rcases lt_or_ge ((n : ℤ) : ℚ) 0 with h | h
  · rw [if_pos h]
    have hx : (-(n : ℚ)) = (((-n : ℤ) : ℤ) : ℚ) := by push_cast; ring
    rw [hx, Int.floor_intCast]
    ring
  · rw [if_neg (not_lt.mpr h), Int.floor_intCast]

/-- Wrap-around never fires on clipped input: the stored 16-bit value is the
plain truncation of the scaled clipped sample. -/
theorem float32ToInt16Sample_no_wrap (x : ℚ) :
    float32ToInt16Sample x =
      ratTrunc (if max (-1) (min 1 x) < 0
                then max (-1) (min 1 x) * 32768
                else max (-1) (min 1 x) * 32767) := by
  unfold float32ToInt16Sample
  obtain ⟨hges, hles⟩ := clip_mem_Icc x
  rcases lt_or_ge (max (-1 : ℚ) (min 1 x)) 0 with h | h
  · rw [if_pos h]
    have hb : (-32768 : ℚ) ≤ max (-1 : ℚ) (min 1 x) * 32768 := by nlinarith
    have hb2 : max (-1 : ℚ) (min 1 x) * 32768 ≤ 32767 := by nlinarith
    obtain ⟨hL, hR⟩ := ratTrunc_bounds _ hb hb2
    exact toInt16_eq_of_bounds _ hL hR
  · rw [if_neg (not_lt.mpr h)]
    have hb : (-32768 : ℚ) ≤ max (-1 : ℚ) (min 1 x) * 32767 := by nlinarith
    have hb2 : max (-1 : ℚ) (min 1 x) * 32767 ≤ 32767 := by nlinarith
    obtain ⟨hL, hR⟩ := ratTrunc_bounds _ hb hb2
    exact toInt16_eq_of_bounds _ hL hR

theorem float32ToInt16Sample_one : float32ToInt16Sample 1 = 32767 := by
  rw [float32ToInt16Sample_no_wrap]
  have hclip : max (-1 : ℚ) (min 1 1) = 1 := by norm_num
  rw [hclip, if_neg (by norm_num), one_mul]
  have : (32767 : ℚ) = ((32767 : ℤ) : ℚ) := by norm_num
  rw [this, ratTrunc_intCast]

theorem float32ToInt16Sample_negOne : float32ToInt16Sample (-1) = -32768 := by
  rw [float32ToInt16Sample_no_wrap]
  have hclip : max (-1 : ℚ) (min 1 (-1)) = -1 := by
    rw [min_eq_right (by norm_num), max_self]
  rw [hclip, if_pos (by norm_num)]
  have : ((-1 : ℚ) * 32768) = ((-32768 : ℤ) : ℚ) := by norm_num
  rw [this, ratTrunc_intCast]

theorem float32ToInt16Sample_zero : float32ToInt16Sample 0 = 0 := by
  rw [float32ToInt16Sample_no_wrap]
  have hclip : max (-1 : ℚ) (min 1 0) = 0 := by norm_num
  rw [hclip, if_neg (by norm_num), zero_mul]
  have : (0 : ℚ) = ((0 : ℤ) : ℚ) := by norm_num
  rw [this, ratTrunc_intCast]

theorem float32ToInt16Sample_ge_one (x : ℚ) (h : 1 ≤ x) :
    float32ToInt16Sample x = 32767 := by
  unfold float32ToInt16Sample
  have hclip : max (-1 : ℚ) (min 1 x) = 1 := by
    rw [min_eq_left h]
    norm_num
  rw [hclip]
  have h1 : max (-1 : ℚ) (min 1 (1 : ℚ)) = 1 := by norm_num
  have := float32ToInt16Sample_one
  unfold float32ToInt16Sample at this
  rw [h1] at this
  exact this

theorem float32ToInt16Sample_le_negOne (x : ℚ) (h : x ≤ -1) :
    float32ToInt16Sample x = -32768 := by
  unfold float32ToInt16Sample
  have hclip : max (-1 : ℚ) (min 1 x) = -1 := by
    rw [min_eq_right (by linarith), max_eq_left h]
  rw [hclip]
  have h1 : max (-1 : ℚ) (min 1 (-1 : ℚ)) = -1 := by
    rw [min_eq_right (by norm_num), max_self]
  have := float32ToInt16Sample_negOne
  unfold float32ToInt16Sample at this
  rw [h1] at this
  exact this

/-- C4 (counterexample): at sample one half the code truncates 16383.5 down to
16383, while the claimed rounding conversion yields 16384. -/
theorem float32ToInt16_round_counterexample :
    float32ToInt16Sample (mkRat 1 2) = 16383 ∧
      roundSpecSample (mkRat 1 2) = 16384 ∧
      float32ToInt16Sample (mkRat 1 2) ≠ roundSpecSample (mkRat 1 2) := by
  have hq : (mkRat 1 2 : ℚ) = 1 / 2 := by
    rw [Rat.mkRat_eq_div]
    norm_num
  have hclip : max (-1 : ℚ) (min 1 (mkRat 1 2)) = 1 / 2 := by
    rw [hq]
    norm_num
  have h1 : float32ToInt16Sample (mkRat 1 2) = 16383 := by
    rw [float32ToInt16Sample_no_wrap, hclip, if_neg (by norm_num)]
    have hv : ((1 : ℚ) / 2 * 32767) = 32767 / 2 := by ring
    rw [hv, ratTrunc_eq_floor, if_neg (by norm_num)]
    rw [Int.floor_eq_iff]
    constructor
    · norm_num
    · norm_num
  have h2 : roundSpecSample (mkRat 1 2) = 16384 := by
    unfold roundSpecSample
    rw [hclip, if_neg (by norm_num)]
    have hv : ((1 : ℚ) / 2 * 32767) = 32767 / 2 := by ring
    rw [hv, round_eq]
    have hv2 : ((32767 : ℚ) / 2 + 1 / 2) = ((16384 : ℤ) : ℚ) := by norm_num
    rw [hv2, Int.floor_intCast]
  exact ⟨h1, h2, by rw [h1, h2]; decide⟩

/-- C4 (amended): `float32ToInt16` clips each sample to [-1,1], scales the
negative branch by 32768 and the non-negative branch by 32767, and then
truncates toward zero (not rounds); 1.0 maps to 32767, -1.0 to -32768,
0.0 to 0, and out-of-range inputs are clipped before scaling.  The
conversion is a total function applied samplewise to the frame. -/
theorem float32ToInt16_correct (x : ℚ) :
    float32ToInt16Sample x =
        ratTrunc (if max (-1) (min 1 x) < 0
                  then max (-1) (min 1 x) * 32768
                  else max (-1) (min 1 x) * 32767) ∧
      float32ToInt16Sample x = float32ToInt16Sample (max (-1) (min 1 x)) ∧
      float32ToInt16 [1, -1, 0, 2, -2] = [32767, -32768, 0, 32767, -32768] := by
  refine ⟨float32ToInt16Sample_no_wrap x, ?_, ?_⟩
  · unfold float32ToInt16Sample
    rw [clip_idem]
  · unfold float32ToInt16
    rw [List.map_cons, List.map_cons, List.map_cons, List.map_cons, List.map_cons,
      List.map_nil]
    rw [float32ToInt16Sample_one, float32ToInt16Sample_negOne, float32ToInt16Sample_zero,
      float32ToInt16Sample_ge_one 2 (by norm_num), float32ToInt16Sample_le_negOne (-2) (by norm_num)]

theorem sextetOfChar_charOfSextet : ∀ n, n < 64 → sextetOfChar (charOfSextet n) = n := by
  decide

theorem charOfSextet_ne_pad : ∀ n, n < 64 → charOfSextet n ≠ '=' := by
  decide

theorem encB_lt64 : ∀ l : List Nat, (∀ b ∈ l, b < 256) → ∀ s ∈ encB l, s < 64
  | [], _, s, hs => by simp [encB] at hs
  | [b0], h, s, hs => by
      have hb0 : b0 < 256 := h b0 (by simp)
      simp [encB] at hs
      rcases hs with hs | hs <;> omega
  | [b0, b1], h, s, hs => by
      have hb0 : b0 < 256 := h b0 (by simp)
      have hb1 : b1 < 256 := h b1 (by simp)
      simp [encB] at hs
      rcases hs with hs | hs | hs <;> omega
  | b0 :: b1 :: b2 :: rest, h, s, hs => by
      have hb0 : b0 < 256 := h b0 (by simp)
      have hb1 : b1 < 256 := h b1 (by simp)
      have hb2 : b2 < 256 := h b2 (by simp)
      have hrest : ∀ b ∈ rest, b < 256 := fun b hb => h b (by simp [hb])
      simp only [encB, List.mem_cons] at hs
      rcases hs with hs | hs | hs | hs | hs
      · omega
      · omega
      · omega
      · omega
      · exact encB_lt64 rest hrest s hs

theorem decB_encB : ∀ l : List Nat, (∀ b ∈ l, b < 256) → decB (encB l) = l
  | [], _ => rfl
  | [b0], h => by
      have hb0 : b0 < 256 := h b0 (by simp)
      simp only [encB, decB, List.cons.injEq, and_true]
      omega
  | [b0, b1], h => by
      have hb0 : b0 < 256 := h b0 (by simp)
      have hb1 : b1 < 256 := h b1 (by simp)
      simp only [encB, decB, List.cons.injEq, and_true]
      omega
  | b0 :: b1 :: b2 :: rest, h => by
      have hb0 : b0 < 256 := h b0 (by simp)
      have hb1 : b1 < 256 := h b1 (by simp)
      have hb2 : b2 < 256 := h b2 (by simp)
      have hrest : ∀ b ∈ rest, b < 256 := fun b hb => h b (by simp [hb])
      simp only [encB, decB, List.cons.injEq]
      refine ⟨by omega, by omega, by omega, decB_encB rest hrest⟩

/-- C5 (confirmed): transport decoding is the exact inverse of transport
encoding; every byte sequence, the empty one included, round-trips
byte-for-byte through `arrayBufferToBase64` then `base64ToUint8Array`. -/
theorem base64_roundtrip (bytes : List Nat) (h : ∀ b ∈ bytes, b < 256) :
    base64ToUint8Array (arrayBufferToBase64 bytes) = bytes := by
  unfold base64ToUint8Array arrayBufferToBase64
  have hdata : (String.mk ((encB bytes).map charOfSextet ++
      List.replicate ((3 - bytes.length % 3) % 3) '=')).data =
      (encB bytes).map charOfSextet ++ List.replicate ((3 - bytes.length % 3) % 3) '=' := rfl
  rw [hdata, List.filter_append]
  have h64 := encB_lt64 bytes h
  have hkeep : ((encB bytes).map charOfSextet).filter (fun c => c ≠ '=') =
      (encB bytes).map charOfSextet := by
    rw [List.filter_eq_self]
    intro c hc
    obtain ⟨s, hs, rfl⟩ := List.mem_map.mp hc
    simpa using charOfSextet_ne_pad s (h64 s hs)
  have hdrop : (List.replicate ((3 - bytes.length % 3) % 3) '=').filter
      (fun c => c ≠ '=') = [] := by
    rw [List.filter_eq_nil_iff]
    intro c hc
    have : c = '=' := List.eq_of_mem_replicate hc
    simp [this]
  rw [hkeep, hdrop, List.append_nil, List.map_map]
  have hid : (encB bytes).map (sextetOfChar ∘ charOfSextet) = encB bytes := by
    have := List.map_congr_left (l := encB bytes)
      (f := sextetOfChar ∘ charOfSextet) (g := id)
      (fun s hs => sextetOfChar_charOfSextet s (h64 s hs))
    rw [this, List.map_id]
  rw [hid]
  exact decB_encB bytes h

/-- C5 witness: a concrete byte sequence with bytes below 256 round-trips. -/
theorem base64_roundtrip_witness :
    (∀ b ∈ [7, 200, 255, 0, 16], b < 256) ∧
      base64ToUint8Array (arrayBufferToBase64 [7, 200, 255, 0, 16]) = [7, 200, 255, 0, 16] :=
  ⟨by decide, base64_roundtrip [7, 200, 255, 0, 16] (by decide)⟩

theorem mergeTextSpec_eq (oldText newText : String) :
    oldText ++
        (if (0 < oldText.length ∧ endsWithSpace oldText = false) ∧
            startsWithSpace newText = false
         then " " else "") ++ newText = mergeTextSpec oldText newText := by
  unfold mergeTextSpec
  by_cases h0 : oldText = ""
  · subst h0
    simp
  · have hlen : 0 < oldText.length := by
      cases hd : oldText.data with
      | nil =>
          exact absurd (by cases oldText with
            | mk d => cases hd; rfl) h0
      | cons c cs =>
          have hl : oldText.length = oldText.data.length := rfl
          rw [hl, hd]
          simp
    by_cases he : endsWithSpace oldText
    · simp [h0, hlen, he, String.append_assoc]
    · by_cases hs : startsWithSpace newText
      · simp [h0, hlen, he, hs, String.append_assoc]
      · simp [h0, hlen, he, hs, String.append_assoc]

theorem handleStreamingLog_eq_spec (prev : List LogMessage) (role : Role)
    (text : String) (now : Nat) :
    handleStreamingLog prev role text now = assembleSpec prev role text now := by
  rcases List.eq_nil_or_concat prev with h | ⟨front, lastv, rfl⟩
  · subst h
    rfl
  · have hrev : (front ++ [lastv]).reverse = lastv :: front.reverse := by
      simp
    simp only [List.concat_eq_append, handleStreamingLog, assembleSpec,
      List.getLast?_concat, hrev]
    by_cases hc : lastv.role = role ∧ role ≠ Role.system
    · rw [if_pos hc, if_pos hc]
      simp [mergeTextSpec_eq]
    · rw [if_neg hc, if_neg hc]

/-- C3 (amended): an incoming `(role, text)` event is merged into the last
message exactly when the log is non-empty, the last role equals `role`, and
`role` is not system; the merge inserts exactly one separating space when the
existing text is non-empty, does not already end with a space character, and
the fragment does not start with one; otherwise a fresh message is appended.
Two consecutive system events always yield two separate messages. -/
theorem handleStreamingLog_correct (prev : List LogMessage) (role : Role)
    (text : String) (now : Nat) :
    handleStreamingLog prev role text now = assembleSpec prev role text now ∧
      handleStreamingLog prev Role.system text now =
        prev ++ [⟨Role.system, text, now⟩] := by
  refine ⟨handleStreamingLog_eq_spec prev role text now, ?_⟩
  cases h : prev.getLast? with
  | none => simp [handleStreamingLog, h]
  | some lastLog =>
      simp only [handleStreamingLog, h]
      rw [if_neg]
      intro hc
      exact hc.2 rfl

/-- C3 (counterexample): when the existing text ends with a newline (boundary
whitespace that is not a space character) the code still inserts a space,
while the whitespace-based rule claimed in C3 would not. -/
theorem handleStreamingLog_whitespace_counterexample :
    handleStreamingLog [⟨Role.user, "A\n", 0⟩] Role.user "B" 1 ≠
        assembleClaim [⟨Role.user, "A\n", 0⟩] Role.user "B" 1 ∧
      (handleStreamingLog [⟨Role.user, "A\n", 0⟩] Role.user "B" 1).map
          LogMessage.text = ["A\n B"] ∧
      (assembleClaim [⟨Role.user, "A\n", 0⟩] Role.user "B" 1).map
          LogMessage.text = ["A\nB"] := by
  refine ⟨?_, ?_, ?_⟩ <;> decide

/-- C2 (counterexample): from an empty log, the events `(user,"Hel")`,
`(user,"lo")`, `(model,"Hi")` do not produce the claimed messages
`[{user,"Hello"},{model,"Hi"}]`, because the code inserts a separating space
exactly when neither fragment has boundary whitespace. -/
theorem transcript_merge_counterexample :
    (runAssembler [(Role.user, "Hel", 0), (Role.user, "lo", 1),
        (Role.model, "Hi", 2)]).map (fun m => (m.role, m.text)) ≠
      [(Role.user, "Hello"), (Role.model, "Hi")] := by
  decide

/-- C2 (amended): the events `(user,"Hel")`, `(user,"lo")`, `(model,"Hi")`
yield exactly `[{user,"Hel lo"},{model,"Hi"}]` (one space inserted because
neither fragment had boundary whitespace), and `(user,"Hi ")`,
`(user,"there")` yield the single message `{user,"Hi there"}` with no doubled
space. -/
theorem transcript_merge_examples :
    (runAssembler [(Role.user, "Hel", 0), (Role.user, "lo", 1),
        (Role.model, "Hi", 2)]).map (fun m => (m.role, m.text)) =
      [(Role.user, "Hel lo"), (Role.model, "Hi")] ∧
      (runAssembler [(Role.user, "Hi ", 0), (Role.user, "there", 1)]).map
          (fun m => (m.role, m.text)) = [(Role.user, "Hi there")] := by
  refine ⟨?_, ?_⟩ <;> decide

/-- C10 (confirmed): when a fragment is merged into the last message, only
that message's text changes: its role and timestamp are preserved, the
length of the log is unchanged, and every earlier message is untouched. -/
theorem handleStreamingLog_frame (prev : List LogMessage) (lastLog : LogMessage)
    (role : Role) (text : String) (now : Nat)
    (hlast : prev.getLast? = some lastLog) (hrole : lastLog.role = role)
    (hsys : role ≠ Role.system) :
    (handleStreamingLog prev role text now).dropLast = prev.dropLast ∧
      (∃ t, (handleStreamingLog prev role text now).getLast? =
        some ⟨lastLog.role, t, lastLog.timestamp⟩) ∧
      (handleStreamingLog prev role text now).length = prev.length := by
  have hne : prev ≠ [] := by
    intro h
    rw [h] at hlast
    simp at hlast
  simp only [handleStreamingLog, hlast]
  rw [if_pos ⟨hrole, hsys⟩]
  refine ⟨by simp, ⟨_, List.getLast?_concat _⟩, ?_⟩
  have hpos : 0 < prev.length := List.length_pos.mpr hne
  simp [List.length_dropLast]
  omega

/-- C10 witness: concrete merge preserving role, timestamp and the earlier
part of the log. -/
theorem handleStreamingLog_frame_witness :
    [(⟨Role.user, "a", 5⟩ : LogMessage)].getLast? = some ⟨Role.user, "a", 5⟩ ∧
      ((handleStreamingLog [⟨Role.user, "a", 5⟩] Role.user "b" 9).dropLast =
        ([⟨Role.user, "a", 5⟩] : List LogMessage).dropLast ∧
      (∃ t, (handleStreamingLog [⟨Role.user, "a", 5⟩] Role.user "b" 9).getLast? =
        some ⟨Role.user, t, 5⟩) ∧
      (handleStreamingLog [⟨Role.user, "a", 5⟩] Role.user "b" 9).length =
        ([⟨Role.user, "a", 5⟩] : List LogMessage).length) :=
  ⟨by decide, handleStreamingLog_frame [⟨Role.user, "a", 5⟩] ⟨Role.user, "a", 5⟩
    Role.user "b" 9 (by decide) rfl (by decide)⟩

theorem schedTrace_head_start_ge (c : ℚ) (l : List (ℚ × ℚ)) :
    ∀ e ∈ (schedTrace c l).head?, c ≤ e.start := by
  cases l with
  | nil => intro e he; simp [schedTrace] at he
  | cons p rest =>
      intro e he
      rcases p with ⟨t, d⟩
      simp [schedTrace] at he
      rw [← he]
      exact le_max_right t c

theorem schedTrace_no_overlap : ∀ (l : List (ℚ × ℚ)) (c : ℚ),
    List.Chain' (fun x y => x.start + x.dur ≤ y.start) (schedTrace c l)
  | [], _ => by simp [schedTrace]
  | (t, d) :: rest, c => by
      rw [schedTrace, List.chain'_cons']
      constructor
      · intro y hy
        exact schedTrace_head_start_ge (max t c + d) rest y hy
      · exact schedTrace_no_overlap rest (max t c + d)

theorem schedTrace_clock_mono : ∀ (l : List (ℚ × ℚ)) (c : ℚ),
    (∀ p ∈ l, 0 ≤ p.2) →
    List.Chain' (· ≤ ·) (c :: (schedTrace c l).map SchedEntry.clockAfter)
  | [], _, _ => by simp [schedTrace]
  | (t, d) :: rest, c, h => by
      have hd : 0 ≤ d := h (t, d) (by simp)
      have hrest : ∀ p ∈ rest, 0 ≤ p.2 := fun p hp => h p (by simp [hp])
      rw [schedTrace, List.map_cons, List.chain'_cons]
      constructor
      · have h1 : c ≤ max t c := le_max_right t c
        show c ≤ max t c + d
        linarith
      · exact schedTrace_clock_mono rest (max t c + d) hrest

theorem schedTrace_clockAfter : ∀ (l : List (ℚ × ℚ)) (c : ℚ),
    ∀ e ∈ schedTrace c l, e.clockAfter = e.start + e.dur
  | [], _ => by simp [schedTrace]
  | (t, d) :: rest, c => by
      intro e he
      rw [schedTrace] at he
      rcases List.mem_cons.mp he with he | he
      · rw [he]
      · exact schedTrace_clockAfter rest (max t c + d) e he

/-- C1 (confirmed): for every arrival sequence of fragments with non-negative
durations, each fragment starts no earlier than the previous start plus the
previous duration (no overlap), the playback clock never decreases across the
whole sequence, and after each fragment the clock equals its start time plus
its duration. -/
theorem playback_scheduler_correct (arrivals : List (ℚ × ℚ)) (clock0 : ℚ)
    (h : ∀ p ∈ arrivals, 0 ≤ p.2) :
    List.Chain' (fun x y => x.start + x.dur ≤ y.start) (schedTrace clock0 arrivals) ∧
      List.Chain' (· ≤ ·)
        (clock0 :: (schedTrace clock0 arrivals).map SchedEntry.clockAfter) ∧
      ∀ e ∈ schedTrace clock0 arrivals, e.clockAfter = e.start + e.dur :=
  ⟨schedTrace_no_overlap arrivals clock0,
    schedTrace_clock_mono arrivals clock0 h,
    schedTrace_clockAfter arrivals clock0⟩

/-- C1 witness: the specification's end-to-end arrival sequence of durations
500 ms, 300 ms, 700 ms with the device idle at time 0. -/
theorem playback_scheduler_witness :
    (∀ p ∈ [((0 : ℚ), (500 : ℚ)), (0, 300), (0, 700)], 0 ≤ p.2) ∧
      (List.Chain' (fun x y => x.start + x.dur ≤ y.start)
          (schedTrace 0 [(0, 500), (0, 300), (0, 700)]) ∧
        List.Chain' (· ≤ ·)
          (0 :: (schedTrace 0 [(0, 500), (0, 300), (0, 700)]).map
            SchedEntry.clockAfter) ∧
        ∀ e ∈ schedTrace 0 [(0, 500), (0, 300), (0, 700)],
          e.clockAfter = e.start + e.dur) :=
  ⟨by decide, playback_scheduler_correct [(0, 500), (0, 300), (0, 700)] 0 (by decide)⟩

theorem handleStreamingLog_system (prev : List LogMessage) (text : String)
    (now : Nat) :
    handleStreamingLog prev Role.system text now =
      prev ++ [⟨Role.system, text, now⟩] := by
  cases h : prev.getLast? with
  | none => simp [handleStreamingLog, h]
  | some lastLog =>
      simp only [handleStreamingLog, h]
      rw [if_neg]
      intro hc
      exact hc.2 rfl

/-- C6 (counterexample): with the credential absent, `start()` does not move
the session directly from idle to error: the status is first set to
connecting and only then to error. -/
theorem handleStart_not_direct :
    (handleStart "" 0 initialSession).statusTrace =
        [Status.connecting, Status.error] ∧
      (handleStart "" 0 initialSession).statusTrace ≠ [Status.error] := by
  refine ⟨?_, ?_⟩ <;> decide

/-- C6 (amended): with the credential absent, `start()` moves an idle session
to connecting and then to error, records exactly one system log entry
(`API Key missing`), and makes no Transport calls. -/
theorem handleStart_missing_key (apiKey : String) (now : Nat) (s : SessionModel)
    (hkey : apiKey = "") (hidle : s.status = Status.idle) :
    (handleStart apiKey now s).status = Status.error ∧
      (handleStart apiKey now s).logs =
        s.logs ++ [⟨Role.system, "API Key missing", now⟩] ∧
      (handleStart apiKey now s).transportCalls = s.transportCalls ∧
      (handleStart apiKey now s).statusTrace =
        s.statusTrace ++ [Status.connecting, Status.error] := by
  subst hkey
  unfold handleStart setStatus
  rw [if_pos rfl]
  refine ⟨rfl, ?_, rfl, by simp⟩
  simp [handleStreamingLog_system]

/-- C6 witness: the concrete fresh session started with an empty API key. -/
theorem handleStart_missing_key_witness :
    "" = "" ∧ initialSession.status = Status.idle ∧
      ((handleStart "" 3 initialSession).status = Status.error ∧
        (handleStart "" 3 initialSession).logs =
          initialSession.logs ++ [⟨Role.system, "API Key missing", 3⟩] ∧
        (handleStart "" 3 initialSession).transportCalls =
          initialSession.transportCalls ∧
        (handleStart "" 3 initialSession).statusTrace =
          initialSession.statusTrace ++ [Status.connecting, Status.error]) :=
  ⟨rfl, rfl, handleStart_missing_key "" 3 initialSession rfl rfl⟩

/-- C7 (confirmed): a capture callback drops the frame exactly when the mute
flag is set or the session is not connected (producing nothing and no error,
the function being total), and otherwise sends precisely the transport
encoding of the 16-bit conversion of the frame. -/
theorem onaudioprocess_correct (muted : Bool) (status : Status) (input : List ℚ) :
    (onaudioprocess muted status input = none ↔
        (muted = true ∨ status ≠ Status.connected)) ∧
      (muted = false → status = Status.connected →
        onaudioprocess muted status input =
          some (arrayBufferToBase64 (int16ListToBytes (float32ToInt16 input)))) := by
  constructor
  · constructor
    · intro h
      by_contra hc
      rw [onaudioprocess, if_neg hc] at h
      exact Option.noConfusion h
    · intro h
      rw [onaudioprocess, if_pos h]
  · intro hm hs
    rw [onaudioprocess, if_neg]
    rintro (h | h)
    · rw [hm] at h
      exact Bool.noConfusion h
    · exact h hs

/-- C7 witness: an unmuted connected callback sends the encoded chunk; a muted
one drops the frame. -/
theorem onaudioprocess_witness :
    (onaudioprocess false Status.connected [1] =
        some (arrayBufferToBase64 (int16ListToBytes (float32ToInt16 [1])))) ∧
      (onaudioprocess true Status.connected [1] = none) :=
  ⟨(onaudioprocess_correct false Status.connected [1]).2 rfl rfl,
    (onaudioprocess_correct true Status.connected [1]).1.mpr (Or.inl rfl)⟩

/-- C8 (confirmed): the final transcript is the log sequence with system
entries removed, each remaining message rendered as `ROLE: text` with the
role upper-cased, joined by newlines in sequence order. -/
theorem fullTranscript_correct (logs : List LogMessage) :
    fullTranscript logs = specTranscript logs := by
  induction logs with
  | nil => rfl
  | cons m rest ih =>
      by_cases hm : m.role = Role.system
      · simp only [specTranscript, if_pos hm, ← ih]
        unfold fullTranscript
        congr 1
        simp [List.filter_cons, hm]
      · simp only [specTranscript, if_neg hm]
        unfold fullTranscript
        have hf : (m :: rest).filter (fun l => l.role ≠ Role.system) =
            m :: rest.filter (fun l => l.role ≠ Role.system) := by
          simp [List.filter_cons, hm]
        rw [hf, List.map_cons]
        cases hfr : rest.filter (fun l => l.role ≠ Role.system) with
        | nil =>
            rw [if_pos (by simp [hfr])]
            simp [joinNl]
        | cons a as =>
            rw [if_neg (by simp [hfr])]
            rw [List.map_cons, joinNl, ← ih]
            unfold fullTranscript
            rw [hfr, List.map_cons]
            simp [String.append_assoc]

/-- Teardown is idempotent and throw-free on every state whose session
promise is not rejected: the first run does not throw, and a second run right
after it throws nothing, performs no side effects and leaves the resource
state unchanged. -/
theorem handleDisconnect_idempotent_of_not_rejected (s : TeardownState)
    (h : s.liveService ≠ some (some PromiseState.rejected)) :
    (handleDisconnect s).threw = false ∧
      (handleDisconnect (handleDisconnect s).state).threw = false ∧
      (handleDisconnect (handleDisconnect s).state).effects = [] ∧
      (handleDisconnect (handleDisconnect s).state).state =
        (handleDisconnect s).state := by
  rcases s with ⟨svc, proc, stream, ctx, sources⟩
  rcases svc with _ | ⟨_ | p⟩
  · cases ctx with
    | none => exact ⟨rfl, rfl, rfl, rfl⟩
    | some b => cases b <;> exact ⟨rfl, rfl, rfl, rfl⟩
  · cases ctx with
    | none => exact ⟨rfl, rfl, rfl, rfl⟩
    | some b => cases b <;> exact ⟨rfl, rfl, rfl, rfl⟩
  · cases p with
    | fulfilled =>
        cases ctx with
        | none => exact ⟨rfl, rfl, rfl, rfl⟩
        | some b => cases b <;> exact ⟨rfl, rfl, rfl, rfl⟩
    | rejected => exact absurd rfl h

/-- C9 (code bug): after a failed connect the session promise is rejected and
never nulled, so `handleDisconnect` throws out of its unguarded first await
with no cleanup performed — the processor, the input tracks, the open audio
context and the live playback handle all survive — and a second run throws
again in the same way, contrary to the claimed idempotent, independently
guarded teardown. -/
theorem handleDisconnect_rejected_promise :
    (handleDisconnect ⟨some (some PromiseState.rejected), true, some 1,
        some false, [0]⟩).threw = true ∧
      (handleDisconnect ⟨some (some PromiseState.rejected), true, some 1,
        some false, [0]⟩).effects = [] ∧
      (handleDisconnect ⟨some (some PromiseState.rejected), true, some 1,
        some false, [0]⟩).state =
        ⟨some (some PromiseState.rejected), true, some 1, some false, [0]⟩ ∧
      (handleDisconnect (handleDisconnect ⟨some (some PromiseState.rejected),
        true, some 1, some false, [0]⟩).state).threw = true ∧
      (handleDisconnect (handleDisconnect ⟨some (some PromiseState.rejected),
        true, some 1, some false, [0]⟩).state).effects = [] := by
  refine ⟨?_, ?_, ?_, ?_, ?_⟩ <;> decide
